import Mathlib

/-!
Verification of the backend-orchestration core (package `model`, file
`core/http/app.go` in this repository snapshot): backend discovery in the
asset directory, hardware-variant selection, the gRPC model supervisor,
and the greedy loader.

The Go code is shallowly embedded: directory contents, GPU lists, CPU
capabilities, the filesystem `stat` oracle and the per-backend load
outcome are explicit parameters; Go maps are modelled by key lists with an
arbitrary enumeration order for `range` loops; the Go `filepath.Join` of
the asset directory with fixed components is modelled on paths represented
as component lists.
-/

/-! ### Backend name constants (verbatim from the Go `const` block) -/

def LlamaGGML : String := "llama-ggml"

def LLamaCPP : String := "llama-cpp"

def LLamaCPPAVX2 : String := "llama-cpp-avx2"

def LLamaCPPAVX : String := "llama-cpp-avx"

def LLamaCPPFallback : String := "llama-cpp-fallback"

def LLamaCPPCUDA : String := "llama-cpp-cuda"

def LLamaCPPHipblas : String := "llama-cpp-hipblas"

def LLamaCPPSycl16 : String := "llama-cpp-sycl_16"

def LLamaCPPSycl32 : String := "llama-cpp-sycl_32"

def LLamaCPPGRPC : String := "llama-cpp-grpc"

def BertEmbeddingsBackend : String := "bert-embeddings"

def LCHuggingFaceBackend : String := "huggingface"

def LocalStoreBackend : String := "local-store"

def PiperBackend : String := "piper"

/-- Models Go `strings.Contains s sub`. -/
def containsStr (s sub : String) : Bool := decide (sub.data <:+: s.data)

/-- Models Go `strings.HasSuffix s post`. -/
def endsWithStr (s post : String) : Bool := List.isSuffixOf post.data s.data

/-- Models Go `strings.ToLower` (character-wise lowercasing). -/
def toLowerStr (s : String) : String := ⟨s.data.map Char.toLower⟩

/-- Splits a character list at every occurrence of `sep`. -/
def splitChar (sep : Char) : List Char → List (List Char)
  | [] => [[]]
  | c :: rest =>
    let r := splitChar sep rest
    if c = sep then [] :: r
    else
      match r with
      | [] => [[c]]
      | h :: t => (c :: h) :: t

/-- Models Go `strings.Split s "/"`, the component view of a path string. -/
def splitSlash (s : String) : List String := (splitChar '/' s.data).map List.asString

/-- Models `filepath.Join(assetDir, "backend-assets", "grpc", backend)` on
paths represented as component lists, for backend names that contain no
path separators or dot segments (all the fixed backend constants). -/
def backendPath (assetDir : List String) (backend : String) : List String :=
  assetDir ++ ["backend-assets", "grpc", backend]

/-! ### Backend discovery: `backendsInAssetDir` -/

/-- Models one `os.DirEntry` of the asset directory. -/
structure DirEntry where
  name : String
  isDir : Bool
deriving DecidableEq

def excludeBackends : List String := [LocalStoreBackend]

/-- Filter of the first `ENTRY` loop of `backendsInAssetDir`: an entry
becomes a backend key unless it is excluded, a directory, a log file, or a
non-fallback llama.cpp variant while auto-detection is on. -/
def keptEntry (autoDetect : Bool) (e : DirEntry) : Bool :=
  !(decide (e.name ∈ excludeBackends)) && !e.isDir && !(endsWithStr e.name ".log") &&
    !(containsStr e.name LLamaCPP && !(containsStr e.name LLamaCPPFallback) && autoDetect)

/-- Keys inserted into the `backends` map by the first loop. -/
def baseKeys (autoDetect : Bool) (entries : List DirEntry) : List String :=
  (entries.filter (keptEntry autoDetect)).map DirEntry.name

/-- Substrings checked by the auto-detect folding loop, in the order the Go
code checks them for each directory entry. -/
def variantChecks : List String :=
  [LLamaCPPAVX2, LLamaCPPAVX, LLamaCPPFallback, LLamaCPPGRPC,
   LLamaCPPCUDA, LLamaCPPHipblas, LLamaCPPSycl16, LLamaCPPSycl32]

/-- Per-entry body of the folding loop.  The Go code guards each append
with a dedicated `foundX` boolean; a flag is set exactly when its variant
is appended, so the flag equals membership of the variant in the
accumulated list, which is the test used here. -/
def foldEntry (acc : List String) (name : String) : List String :=
  variantChecks.foldl
    (fun acc v => if containsStr name v && !(decide (v ∈ acc)) then acc ++ [v] else acc) acc

/-- Member-variant list accumulated for the canonical `llama-cpp` key by
the auto-detect folding loop over all directory entries. -/
def foldMembers (entries : List DirEntry) : List String :=
  entries.foldl (fun acc e => foldEntry acc e.name) []

/-- Value stored under the `llama-cpp` key: the folding loop runs only when
auto-detection is on and no key `llama-cpp` is already present. -/
def llamaMembers (autoDetect : Bool) (entries : List DirEntry) : List String :=
  if autoDetect && !(decide (LLamaCPP ∈ baseKeys autoDetect entries)) then
    foldMembers entries
  else []

/-- Key set of the `backends` map after the folding loop: the fold creates
the `llama-cpp` key via `append` exactly when it appends at least one
variant. -/
def backendKeys (autoDetect : Bool) (entries : List DirEntry) : List String :=
  let base := baseKeys autoDetect entries
  if autoDetect && !(decide (LLamaCPP ∈ base)) && !(foldMembers entries).isEmpty then
    base ++ [LLamaCPP]
  else base

def priorityList : List String := [LLamaCPP, LlamaGGML, LLamaCPPFallback]

def toTheEnd : List String := [LCHuggingFaceBackend, BertEmbeddingsBackend]

/-- Models `orderedmap.Set` restricted to its effect on the key sequence: a
fresh key is appended, an existing key keeps its position. -/
def addKey (acc : List String) (k : String) : List String :=
  if k ∈ acc then acc else acc ++ [k]

/-- Guarded `Set` step shared by the three ordering loops. -/
def gAdd (g : String → Bool) (acc : List String) (x : String) : List String :=
  if g x then addKey acc x else acc

/-- Key sequence of the ordered map built by `backendsInAssetDir`: the
priority list first, then the map keys in the arbitrary enumeration order
`iter` of the Go `range` loop (skipping deferred names), then the deferred
suffix. -/
def orderedKeys (bk : List String) (iter : List String) : List String :=
  let s1 := priorityList.foldl (gAdd (fun p => decide (p ∈ bk))) []
  let s2 := iter.foldl (gAdd (fun k => !(decide (k ∈ toTheEnd)))) s1
  toTheEnd.foldl (gAdd (fun t => decide (t ∈ bk))) s2

/-- Candidate list returned by `backendsInAssetDir` on a successful
directory read, parametrized by the enumeration order `iter` that the Go
`for k, v := range backends` loop happens to use. -/
def backendsInAssetDir (autoDetect : Bool) (entries : List DirEntry)
    (iter : List String) : List String :=
  orderedKeys (backendKeys autoDetect entries) iter

/-- Modelled from the spec: the claimed fixed discovery order of the
member-variant list (GPU-CUDA, GPU-HIP, GPU-SYCL-16, GPU-SYCL-32,
CPU-AVX2, CPU-AVX, fallback, remote-GRPC), first occurrence of each
variant winning.  This follows the spec's words, to be compared with
`foldMembers`, which follows the code. -/
def specVariantOrder : List String :=
  [LLamaCPPCUDA, LLamaCPPHipblas, LLamaCPPSycl16, LLamaCPPSycl32,
   LLamaCPPAVX2, LLamaCPPAVX, LLamaCPPFallback, LLamaCPPGRPC]

/-- Modelled from the spec: member list per the spec's claimed fixed order,
keeping each variant some directory entry's name contains. -/
def specFoldMembers (entries : List DirEntry) : List String :=
  specVariantOrder.filter (fun v => entries.any (fun e => containsStr e.name v))

/-! ### Variant selection: `selectGRPCProcess` -/

/-- System facts `selectGRPCProcess` consults: the `LLAMACPP_GRPC_SERVERS`
environment variable, the `xsysinfo.GPUs()` result, the CPU capability
probes, and the `os.Stat` oracle on paths. -/
structure SysInfo where
  grpcServersEnvSet : Bool
  gpusOk : Bool
  gpus : List String
  hasAVX2 : Bool
  hasAVX : Bool
  stat : List String → Bool

/-- Mutable state of the GPU scan loop: the `grpcProcess` variable (`none`
models the empty string) and the three `found` flags. -/
structure GpuScan where
  grpcProcess : Option (List String)
  foundCUDA : Bool
  foundAMDGPU : Bool
  foundIntelGPU : Bool
deriving DecidableEq

/-- Disjunction of the three `found` flags, as tested after the GPU loop. -/
def gpuFound (st : GpuScan) : Bool :=
  st.foundCUDA || st.foundAMDGPU || st.foundIntelGPU

/-- Body of the `for _, gpu := range gpus` loop: the three vendor checks run
in sequence, each assigning the variant path only when its file exists. -/
def gpuStep (assetDir : List String) (f16 : Bool) (stat : List String → Bool)
    (st : GpuScan) (gpu : String) : GpuScan :=
  let st :=
    if containsStr gpu "nvidia" then
      let p := backendPath assetDir LLamaCPPCUDA
      if stat p then { st with grpcProcess := some p, foundCUDA := true } else st
    else st
  let st :=
    if containsStr gpu "amd" then
      let p := backendPath assetDir LLamaCPPHipblas
      if stat p then { st with grpcProcess := some p, foundAMDGPU := true } else st
    else st
  if containsStr gpu "intel" then
    let b := if f16 then LLamaCPPSycl16 else LLamaCPPSycl32
    let p := backendPath assetDir b
    if stat p then { st with grpcProcess := some p, foundIntelGPU := true } else st
  else st

/-- Does this GPU string produce a vendor match whose variant file is
installed?  Mirrors the conditions under which `gpuStep` assigns. -/
def gpuMatchResolves (assetDir : List String) (f16 : Bool)
    (stat : List String → Bool) (gpu : String) : Bool :=
  (containsStr gpu "nvidia" && stat (backendPath assetDir LLamaCPPCUDA)) ||
  (containsStr gpu "amd" && stat (backendPath assetDir LLamaCPPHipblas)) ||
  (containsStr gpu "intel" &&
    stat (backendPath assetDir (if f16 then LLamaCPPSycl16 else LLamaCPPSycl32)))

/-- Does GPU string `gpu` vendor-match variant `v` (installed or not)? -/
def gpuVendorMatch (f16 : Bool) (gpu v : String) : Bool :=
  (decide (v = LLamaCPPCUDA) && containsStr gpu "nvidia") ||
  (decide (v = LLamaCPPHipblas) && containsStr gpu "amd") ||
  (decide (v = (if f16 then LLamaCPPSycl16 else LLamaCPPSycl32)) && containsStr gpu "intel")

/-- Models `selectGRPCProcess`: `none` models the empty-string return. -/
def selectGRPCProcess (backend : String) (assetDir : List String) (f16 : Bool)
    (sys : SysInfo) : Option (List String) :=
  if backend ≠ LLamaCPP then none
  else if sys.grpcServersEnvSet then some (backendPath assetDir LLamaCPPGRPC)
  else
    let st0 : GpuScan := ⟨none, false, false, false⟩
    let st := if sys.gpusOk then sys.gpus.foldl (gpuStep assetDir f16 sys.stat) st0 else st0
    if st.foundCUDA || st.foundAMDGPU || st.foundIntelGPU then st.grpcProcess
    else if sys.hasAVX2 then
      let p := backendPath assetDir LLamaCPPAVX2
      if sys.stat p then some p else st.grpcProcess
    else if sys.hasAVX then
      let p := backendPath assetDir LLamaCPPAVX
      if sys.stat p then some p else st.grpcProcess
    else
      let p := backendPath assetDir LLamaCPPFallback
      if sys.stat p then some p else st.grpcProcess

/-! ### Process supervision: the `grpcModel` readiness and load phase -/

/-- Health-check polling loop of `grpcModel`: attempt `i`, then the
remaining `n - 1` attempts; a failed attempt sleeps `delay` seconds before
the next iteration (also on the final attempt, since the Go `time.Sleep`
is unconditional in the loop body).  Returns the `ready` flag and the
total seconds slept. -/
def healthLoop : Nat → Nat → (Nat → Bool) → Nat → Bool × Nat
  | 0, _, _, _ => (false, 0)
  | n + 1, delay, alive, i =>
    if alive i then (true, 0)
    else
      let r := healthLoop n delay alive (i + 1)
      (r.1, delay + r.2)

/-- Outcome of the readiness-and-load phase of `grpcModel`: the returned
value, whether `ml.deleteProcess(o.model)` ran, and the total sleep. -/
structure GrpcAwaitResult where
  result : Except String Unit
  deleted : Bool
  totalSleep : Nat

/-- Models the tail of `grpcModel` after the process is started: poll the
health check up to `attempts` times, then issue `LoadModel`.  `load` is
the RPC outcome: a transport error, or a reply carrying `(Success,
Message)`. -/
def grpcModelAwait (attempts delay : Nat) (alive : Nat → Bool)
    (load : Except String (Bool × String)) : GrpcAwaitResult :=
  let hr := healthLoop attempts delay alive 0
  if hr.1 then
    match load with
    | Except.error e => ⟨Except.error ("could not load model: " ++ e), true, hr.2⟩
    | Except.ok reply =>
      if reply.1 then ⟨Except.ok (), false, hr.2⟩
      else ⟨Except.error ("could not load model (no success): " ++ reply.2), true, hr.2⟩
  else ⟨Except.error "grpc service not ready", true, hr.2⟩

/-! ### Path resolution guards of `grpcModel` (non-external backends) -/

/-- Models `filepath.Clean` on component lists: drops `.` components and
resolves `..` against the preceding component. -/
def cleanComponents (l : List String) : List String :=
  l.foldl (fun acc c => if c = "." then acc else if c = ".." then acc.dropLast else acc ++ [c]) []

/-- Models `filepath.Join(assetDir, "backend-assets", "grpc", backend)` for
an arbitrary backend string, which may contain separators and dot
segments that `Join` cleans away. -/
def resolveBackendPath (assetDir : List String) (backend : String) : List String :=
  cleanComponents (assetDir ++ ["backend-assets", "grpc"] ++ splitSlash backend)

/-- Modelled from the spec: `utils.VerifyPath` (implementation not under
`src/`) verifies that the resolved path lies strictly within the given
directory — the directory is a proper prefix of the cleaned path. -/
def VerifyPath (p : List String) (dir : List String) : Bool :=
  (cleanComponents dir).isPrefixOf p && !(decide (p = cleanComponents dir))

/-- Path substituted by auto-detection: the Variant Selector's choice when
non-empty, otherwise the canonical resolved path. -/
def effectiveProcess (autoDetect : Bool) (assetDir : List String) (backend : String)
    (f16 : Bool) (sys : SysInfo) : List String :=
  let grpcProcess := resolveBackendPath assetDir backend
  if autoDetect then
    match selectGRPCProcess backend assetDir f16 sys with
    | some selected => selected
    | none => grpcProcess
  else grpcProcess

/-- Models the non-external prologue of `grpcModel` up to the spawn: the
`VerifyPath` guard, the auto-detect substitution, and the existence check.
`Except.ok p` means control reaches `startProcess` with executable `p`;
any `Except.error` is returned before a process is spawned. -/
def grpcModelResolve (autoDetect : Bool) (assetDir : List String) (backend : String)
    (f16 : Bool) (sys : SysInfo) : Except String (List String) :=
  let grpcProcess := resolveBackendPath assetDir backend
  if !(VerifyPath grpcProcess assetDir) then
    Except.error "refering to a backend not in asset dir"
  else
    let g := effectiveProcess autoDetect assetDir backend f16 sys
    if !(sys.stat g) then
      Except.error ("backend not found: " ++ String.intercalate "/" g)
    else Except.ok g

/-! ### Greedy loading: `GreedyLoader` -/

/-- Registered backend handle (the registry's record for a model). -/
structure Handle where
  id : Nat
deriving DecidableEq

/-- Observable side effects of a `GreedyLoader` run: the single-active
eviction (`StopGRPC(allExcept(model))`) and each `BackendLoader` call with
the backend string it was given. -/
inductive GAction where
  | evict : GAction
  | attempt : String → GAction
deriving DecidableEq

/-- Result of a `GreedyLoader` run.  `nilDeref` models the Go runtime panic
of calling `Error()` on a nil error value. -/
inductive GreedyOutcome where
  | ok : Handle → GreedyOutcome
  | aggErr : List String → GreedyOutcome
  | nilDeref : GreedyOutcome
deriving DecidableEq

/-- Environment of a greedy load: the outcome of `BackendLoader` per
backend string (a model handle and an error, either of which may be nil),
the CPU capability probes, and the `os.Stat` oracle. -/
structure LoadEnv where
  tryLoad : String → Option Handle × Option String
  hasAVX2 : Bool
  hasAVX : Bool
  stat : List String → Bool

/-- Error text joined for a failing candidate, following the two failure
branches of the loop body. -/
def describeFail (key : String) (out : Option Handle × Option String) : String :=
  match out.2 with
  | some e => "[" ++ key ++ "]: " ++ e
  | none => "backend " ++ key ++ " returned no usable model"

/-- Backend string of the llama.cpp targeted retry.  `none` models the
`continue` that skips the retry; note that in the AVX2 and AVX branches a
missing file leaves `backendToUse` as the empty string and the retry still
runs, and that the AVX branch stats the AVX2 file. -/
def retryTarget (env : LoadEnv) (assetDir : List String) : Option String :=
  if env.hasAVX2 then
    if env.stat (backendPath assetDir LLamaCPPAVX2) then some LLamaCPPAVX2 else some ""
  else if env.hasAVX then
    if env.stat (backendPath assetDir LLamaCPPAVX2) then some LLamaCPPAVX else some ""
  else
    if env.stat (backendPath assetDir LLamaCPPFallback) then some LLamaCPPFallback
    else none

/-- Modelled from the spec: the retry selects the best CPU-only variant —
AVX2, then AVX, then plain fallback, the first of these whose file is
present on disk; none present means the retry is skipped.  This follows
the spec's words, to be compared with `retryTarget`, which follows the
code. -/
def specRetryTarget (stat : List String → Bool) (assetDir : List String) : Option String :=
  if stat (backendPath assetDir LLamaCPPAVX2) then some LLamaCPPAVX2
  else if stat (backendPath assetDir LLamaCPPAVX) then some LLamaCPPAVX
  else if stat (backendPath assetDir LLamaCPPFallback) then some LLamaCPPFallback
  else none

/-- Candidate loop of `GreedyLoader` over the remaining candidate keys,
carrying the joined error list and the action trace. -/
def greedyLoop (env : LoadEnv) (autoDetect : Bool) (assetDir : List String) :
    List String → List String → List GAction → GreedyOutcome × List GAction
  | [], errs, acts =>
    (if errs.isEmpty then GreedyOutcome.nilDeref else GreedyOutcome.aggErr errs, acts)
  | key :: rest, errs, acts =>
    let r := env.tryLoad key
    let acts := acts ++ [GAction.attempt key]
    match r with
    | (some m, none) => (GreedyOutcome.ok m, acts)
    | r =>
      let errs := errs ++ [describeFail key r]
      if autoDetect && decide (key = LLamaCPP) && !errs.isEmpty then
        match retryTarget env assetDir with
        | none => greedyLoop env autoDetect assetDir rest errs acts
        | some b =>
          let r2 := env.tryLoad b
          let acts := acts ++ [GAction.attempt b]
          match r2 with
          | (some m, none) => (GreedyOutcome.ok m, acts)
          | (none, none) => (GreedyOutcome.nilDeref, acts)
          | r2 => greedyLoop env autoDetect assetDir rest (errs ++ [describeFail key r2]) acts
      else greedyLoop env autoDetect assetDir rest errs acts

/-- Models `GreedyLoader`: the already-loaded short circuit, then the
single-active eviction, then the candidate loop over the discovered
backends followed by the external backends. -/
def GreedyLoader (env : LoadEnv) (autoDetect : Bool) (assetDir : List String)
    (loaded : Option Handle) (singleActiveBackend : Bool)
    (autoLoadBackends externals : List String) : GreedyOutcome × List GAction :=
  match loaded with
  | some m => (GreedyOutcome.ok m, [])
  | none =>
    let acts := if singleActiveBackend then [GAction.evict] else []
    greedyLoop env autoDetect assetDir (autoLoadBackends ++ externals) [] acts

/-! ### Explicit backend selection: `BackendLoader` normalization -/

/-- Alias table, verbatim from the Go `Aliases` map. -/
def Aliases : List (String × String) :=
  [("go-llama", LLamaCPP), ("llama", LLamaCPP),
   ("embedded-store", LocalStoreBackend), ("langchain-huggingface", LCHuggingFaceBackend)]

def lookupAlias (s : String) : Option String :=
  (Aliases.find? (fun kv => kv.1 == s)).map (fun kv => kv.2)

/-- Normalization performed by `BackendLoader` before loading: lowercase
the requested backend string, then resolve it through the alias table. -/
def normalizeBackend (s : String) : String :=
  let b := toLowerStr s
  match lookupAlias b with
  | some realBackend => realBackend
  | none => b

/-! ### Concrete inputs used by counterexamples and witnesses -/

/-- Asset directory holding only an AVX2 and a CUDA llama.cpp variant. -/
def exEntries : List DirEntry :=
  [⟨"llama-cpp-avx2", false⟩, ⟨"llama-cpp-cuda", false⟩]

/-- Load environment in which every `BackendLoader` call fails with a
non-nil error, the CPU reports AVX without AVX2, and the only installed
llama.cpp variant file is the AVX one. -/
def exEnvAVX : LoadEnv :=
  ⟨fun _ => (none, some "load failed"),
   false, true,
   fun p => decide (p = backendPath [] LLamaCPPAVX)⟩

/-- Load environment with no installed files and every load failing. -/
def exEnvFail : LoadEnv :=
  ⟨fun _ => (none, some "load failed"), false, false, fun _ => false⟩

/-- System report: one NVIDIA GPU, CUDA variant installed, AVX2 CPU. -/
def exSysCUDA : SysInfo :=
  ⟨false, true, ["nvidia tesla"], true, true,
   fun p => decide (p = backendPath [] LLamaCPPCUDA)⟩

/-- System report with no GPUs, no CPU features, and every file present. -/
def exSysAll : SysInfo := ⟨false, true, [], false, false, fun _ => true⟩

/-! ### Helper lemmas about the ordered-map key folds -/

theorem mem_addKey {acc : List String} {k x : String} :
    x ∈ addKey acc k ↔ x ∈ acc ∨ x = k := by
  by_cases h : k ∈ acc
  · simp only [addKey, if_pos h]
    exact ⟨fun hx => Or.inl hx, fun hx => hx.elim id (fun e => e ▸ h)⟩
  · simp [addKey, if_neg h]

theorem foldl_gAdd_decomp (g : String → Bool) (L : List String) :
    ∀ acc, ∃ t, L.foldl (gAdd g) acc = acc ++ t ∧
      t.Nodup ∧ (∀ x ∈ t, x ∈ L ∧ g x = true ∧ x ∉ acc) ∧
      (∀ x, x ∈ L → g x = true → x ∉ acc → x ∈ t) := by
  induction L with
  | nil => exact fun acc => ⟨[], by simp⟩
  | cons a L ih =>
    intro acc
    rw [List.foldl_cons]
    by_cases hg : g a = true
    · by_cases ha : a ∈ acc
      · have hstep : gAdd g acc a = acc := by simp [gAdd, hg, addKey, if_pos ha]
        obtain ⟨t, ht, hnd, hsub, hcom⟩ := ih acc
        rw [hstep]
        refine ⟨t, ht, hnd, ?_, ?_⟩
        · exact fun x hx => ⟨List.mem_cons_of_mem _ (hsub x hx).1, (hsub x hx).2.1, (hsub x hx).2.2⟩
        · intro x hx hgx hxa
          rcases List.mem_cons.1 hx with rfl | hx
          · exact absurd ha hxa
          · exact hcom x hx hgx hxa
      · have hstep : gAdd g acc a = acc ++ [a] := by simp [gAdd, hg, addKey, if_neg ha]
        obtain ⟨t, ht, hnd, hsub, hcom⟩ := ih (acc ++ [a])
        rw [hstep]
        refine ⟨a :: t, by simpa using ht, ?_, ?_, ?_⟩
        · refine List.nodup_cons.2 ⟨fun hat => ?_, hnd⟩
          exact (hsub a hat).2.2 (by simp)
        · intro x hx
          rcases List.mem_cons.1 hx with rfl | hx
          · exact ⟨List.mem_cons_self _ _, hg, ha⟩
          · obtain ⟨h1, h2, h3⟩ := hsub x hx
            exact ⟨List.mem_cons_of_mem _ h1, h2, fun hxacc => h3 (List.mem_append_left _ hxacc)⟩
        · intro x hx hgx hxa
          rcases List.mem_cons.1 hx with rfl | hx
          · exact List.mem_cons_self _ _
          · by_cases hxeq : x = a
            · exact hxeq ▸ List.mem_cons_self _ _
            · exact List.mem_cons_of_mem _
                (hcom x hx hgx (by simp [hxeq, hxa]))
    · have hstep : gAdd g acc a = acc := by simp [gAdd, hg]
      obtain ⟨t, ht, hnd, hsub, hcom⟩ := ih acc
      rw [hstep]
      refine ⟨t, ht, hnd, ?_, ?_⟩
      · exact fun x hx => ⟨List.mem_cons_of_mem _ (hsub x hx).1, (hsub x hx).2.1, (hsub x hx).2.2⟩
      · intro x hx hgx hxa
        rcases List.mem_cons.1 hx with rfl | hx
        · exact absurd hgx hg
        · exact hcom x hx hgx hxa

theorem mem_foldl_gAdd {g : String → Bool} {L acc : List String} {x : String} :
    x ∈ L.foldl (gAdd g) acc ↔ x ∈ acc ∨ (x ∈ L ∧ g x = true) := by
  obtain ⟨t, ht, _, hsub, hcom⟩ := foldl_gAdd_decomp g L acc
  rw [ht, List.mem_append]
  constructor
  · rintro (h | h)
    · exact Or.inl h
    · exact Or.inr ⟨(hsub x h).1, (hsub x h).2.1⟩
  · rintro (h | ⟨h1, h2⟩)
    · exact Or.inl h
    · by_cases hacc : x ∈ acc
      · exact Or.inl hacc
      · exact Or.inr (hcom x h1 h2 hacc)

theorem nodup_foldl_gAdd {g : String → Bool} {L acc : List String} (h : acc.Nodup) :
    (L.foldl (gAdd g) acc).Nodup := by
  obtain ⟨t, ht, hnd, hsub, _⟩ := foldl_gAdd_decomp g L acc
  rw [ht, List.nodup_append]
  exact ⟨h, hnd, fun x hx hxt => (hsub x hxt).2.2 hx⟩

theorem foldl_gAdd_filter (g : String → Bool) (L : List String) :
    ∀ acc, L.Nodup → (∀ x ∈ L, x ∉ acc) → L.foldl (gAdd g) acc = acc ++ L.filter g := by
  induction L with
  | nil => simp
  | cons a L ih =>
    intro acc hnd hdisj
    rw [List.foldl_cons]
    by_cases hg : g a = true
    · have ha : a ∉ acc := hdisj a (List.mem_cons_self _ _)
      have hstep : gAdd g acc a = acc ++ [a] := by simp [gAdd, hg, addKey, if_neg ha]
      rw [hstep, ih (acc ++ [a]) (List.nodup_cons.1 hnd).2 ?_, List.filter_cons_of_pos hg]
      · simp
      · intro x hx
        simp only [List.mem_append, List.mem_singleton]
        rintro (h | rfl)
        · exact hdisj x (List.mem_cons_of_mem _ hx) h
        · exact (List.nodup_cons.1 hnd).1 hx
    · have hstep : gAdd g acc a = acc := by simp [gAdd, hg]
      rw [hstep, ih acc (List.nodup_cons.1 hnd).2
        (fun x hx => hdisj x (List.mem_cons_of_mem _ hx)),
        List.filter_cons_of_neg (by simp [hg])]

theorem localStore_not_mem_backendKeys (ad : Bool) (entries : List DirEntry) :
    LocalStoreBackend ∉ backendKeys ad entries := by
  intro h
  have hbase : LocalStoreBackend ∈ baseKeys ad entries := by
    dsimp only [backendKeys] at h
    split at h
    · rcases List.mem_append.1 h with h1 | h1
      · exact h1
      · exact absurd (List.mem_singleton.1 h1) (by decide)
    · exact h
  simp only [baseKeys, List.mem_map, List.mem_filter] at hbase
  obtain ⟨e, ⟨_, hkept⟩, hname⟩ := hbase
  simp only [keptEntry, Bool.and_eq_true, Bool.not_eq_true'] at hkept
  have := hkept.1.1.1
  rw [hname] at this
  simp [excludeBackends] at this

theorem priority_toTheEnd_disjoint : ∀ t ∈ toTheEnd, t ∉ priorityList := by decide

theorem priorityList_nodup : priorityList.Nodup := by decide

theorem toTheEnd_nodup : toTheEnd.Nodup := by decide

/-- C1: for every asset directory contents, the candidate list returned by
`backendsInAssetDir` (for any enumeration order the Go map `range` loop
uses) contains each discovered canonical backend name exactly once (it is
duplicate-free and its membership is exactly the discovered key set), the
excluded internal-only backend `local-store` never appears, and the list
decomposes as the fixed priority prefix (`llama-cpp`, `llama-ggml`,
`llama-cpp-fallback`, in that order, when present), then the remaining
names, then the fixed deferred suffix (`huggingface` then
`bert-embeddings`, when present). -/
theorem candidateList_ordering (ad : Bool) (entries : List DirEntry) (iter : List String)
    (hiter : ∀ k, k ∈ iter ↔ k ∈ backendKeys ad entries) :
    (backendsInAssetDir ad entries iter).Nodup ∧
    (∀ n, n ∈ backendsInAssetDir ad entries iter ↔ n ∈ backendKeys ad entries) ∧
    LocalStoreBackend ∉ backendsInAssetDir ad entries iter ∧
    ∃ mid, backendsInAssetDir ad entries iter =
        priorityList.filter (fun p => decide (p ∈ backendKeys ad entries)) ++ mid ++
          toTheEnd.filter (fun t => decide (t ∈ backendKeys ad entries)) ∧
        ∀ m ∈ mid, m ∉ priorityList ∧ m ∉ toTheEnd := by
  have hks : backendsInAssetDir ad entries iter =
      orderedKeys (backendKeys ad entries) iter := rfl
  set bk := backendKeys ad entries with hbk
  set g1 : String → Bool := fun p => decide (p ∈ bk) with hg1
  set g2 : String → Bool := fun k => !(decide (k ∈ toTheEnd)) with hg2
  set s1 := priorityList.foldl (gAdd g1) [] with hs1
  set s2 := iter.foldl (gAdd g2) s1 with hs2
  have hr : backendsInAssetDir ad entries iter = toTheEnd.foldl (gAdd g1) s2 := rfl
  -- the priority prefix is filtered from the fixed priority list
  have hs1f : s1 = priorityList.filter g1 := by
    rw [hs1, foldl_gAdd_filter g1 priorityList [] priorityList_nodup (by simp)]
    simp
  have hmem_s1 : ∀ x, x ∈ s1 ↔ x ∈ priorityList ∧ x ∈ bk := by
    intro x
    rw [hs1f, List.mem_filter, hg1]
    simp
  -- the middle segment
  obtain ⟨mid, hmid, hmidnd, hmidsub, hmidcom⟩ := foldl_gAdd_decomp g2 iter s1
  -- toTheEnd names never enter s2
  have hend_not_s2 : ∀ t ∈ toTheEnd, t ∉ s2 := by
    intro t htend hts2
    rw [hs2, hmid, List.mem_append] at hts2
    rcases hts2 with h | h
    · exact priority_toTheEnd_disjoint t htend ((hmem_s1 t).1 h).1
    · have := (hmidsub t h).2.1
      rw [hg2] at this
      simp at this
      exact this htend
  have hsuf : backendsInAssetDir ad entries iter = s2 ++ toTheEnd.filter g1 := by
    rw [hr, foldl_gAdd_filter g1 toTheEnd s2 toTheEnd_nodup hend_not_s2]
  -- membership characterization
  have hmem : ∀ n, n ∈ backendsInAssetDir ad entries iter ↔ n ∈ bk := by
    intro n
    rw [hr, mem_foldl_gAdd, hs2, mem_foldl_gAdd, hmem_s1]
    constructor
    · rintro ((⟨_, h⟩ | ⟨h, _⟩) | ⟨_, h⟩)
      · exact h
      · exact (hiter n).1 h
      · rw [hg1] at h
        exact of_decide_eq_true h
    · intro h
      by_cases hend : n ∈ toTheEnd
      · exact Or.inr ⟨hend, by rw [hg1]; exact decide_eq_true h⟩
      · refine Or.inl (Or.inr ⟨(hiter n).2 h, ?_⟩)
        rw [hg2]
        simp [hend]
  refine ⟨?_, hmem, ?_, ?_⟩
  · rw [hr]
    exact nodup_foldl_gAdd (nodup_foldl_gAdd (by simp [hs1f, List.Nodup.filter _ priorityList_nodup]))
  · intro h
    exact localStore_not_mem_backendKeys ad entries ((hmem _).1 h)
  · refine ⟨mid, ?_, ?_⟩
    · rw [hsuf, hs2, hmid, hs1f, List.append_assoc]
    · intro m hm
      obtain ⟨hmiter, hmg2, hms1⟩ := hmidsub m hm
      constructor
      · intro hmp
        exact hms1 ((hmem_s1 m).2 ⟨hmp, (hiter m).1 hmiter⟩)
      · intro hmend
        rw [hg2] at hmg2
        simp at hmg2
        exact hmg2 hmend

/-- Witness for `candidateList_ordering`: the enumeration order can be taken
to be the key list itself. -/
theorem candidateList_ordering_witness :
    (backendsInAssetDir true exEntries (backendKeys true exEntries)).Nodup ∧
    (∀ n, n ∈ backendsInAssetDir true exEntries (backendKeys true exEntries) ↔
      n ∈ backendKeys true exEntries) ∧
    LocalStoreBackend ∉ backendsInAssetDir true exEntries (backendKeys true exEntries) ∧
    ∃ mid, backendsInAssetDir true exEntries (backendKeys true exEntries) =
        priorityList.filter (fun p => decide (p ∈ backendKeys true exEntries)) ++ mid ++
          toTheEnd.filter (fun t => decide (t ∈ backendKeys true exEntries)) ∧
        ∀ m ∈ mid, m ∉ priorityList ∧ m ∉ toTheEnd :=
  candidateList_ordering true exEntries (backendKeys true exEntries) (fun _ => Iff.rfl)

/-! ### Lemmas about the auto-detect variant fold -/

theorem mem_variantFold (name : String) (L : List String) :
    ∀ (acc : List String) (v : String),
      (v ∈ L.foldl
        (fun acc v => if containsStr name v && !(decide (v ∈ acc)) then acc ++ [v] else acc) acc) ↔
      v ∈ acc ∨ (v ∈ L ∧ containsStr name v = true) := by
  induction L with
  | nil => simp
  | cons a L ih =>
    intro acc v
    rw [List.foldl_cons]
    by_cases hc : containsStr name a = true
    · by_cases ha : a ∈ acc
      · have hstep : (if containsStr name a && !(decide (a ∈ acc)) then acc ++ [a] else acc) = acc := by
          simp [ha]
        rw [hstep, ih]
        constructor
        · rintro (h | ⟨h1, h2⟩)
          · exact Or.inl h
          · exact Or.inr ⟨List.mem_cons_of_mem _ h1, h2⟩
        · rintro (h | ⟨h1, h2⟩)
          · exact Or.inl h
          · rcases List.mem_cons.1 h1 with rfl | h1
            · exact Or.inl ha
            · exact Or.inr ⟨h1, h2⟩
      · have hstep : (if containsStr name a && !(decide (a ∈ acc)) then acc ++ [a] else acc) =
            acc ++ [a] := by simp [hc, ha]
        rw [hstep, ih]
        constructor
        · rintro (h | ⟨h1, h2⟩)
          · rcases List.mem_append.1 h with h | h
            · exact Or.inl h
            · exact Or.inr ⟨by simp [List.mem_singleton.1 h], by rw [List.mem_singleton.1 h]; exact hc⟩
          · exact Or.inr ⟨List.mem_cons_of_mem _ h1, h2⟩
        · rintro (h | ⟨h1, h2⟩)
          · exact Or.inl (List.mem_append_left _ h)
          · rcases List.mem_cons.1 h1 with rfl | h1
            · exact Or.inl (List.mem_append_right _ (List.mem_singleton.2 rfl))
            · exact Or.inr ⟨h1, h2⟩
    · have hstep : (if containsStr name a && !(decide (a ∈ acc)) then acc ++ [a] else acc) = acc := by
        simp [hc]
      rw [hstep, ih]
      constructor
      · rintro (h | ⟨h1, h2⟩)
        · exact Or.inl h
        · exact Or.inr ⟨List.mem_cons_of_mem _ h1, h2⟩
      · rintro (h | ⟨h1, h2⟩)
        · exact Or.inl h
        · rcases List.mem_cons.1 h1 with rfl | h1
          · exact absurd h2 hc
          · exact Or.inr ⟨h1, h2⟩

theorem nodup_variantFold (name : String) (L : List String) :
    ∀ acc : List String, acc.Nodup →
      (L.foldl
        (fun acc v => if containsStr name v && !(decide (v ∈ acc)) then acc ++ [v] else acc)
        acc).Nodup := by
  induction L with
  | nil => exact fun acc h => h
  | cons a L ih =>
    intro acc hacc
    rw [List.foldl_cons]
    by_cases hg : (containsStr name a && !(decide (a ∈ acc))) = true
    · rw [if_pos hg]
      refine ih _ ?_
      rw [List.nodup_append]
      refine ⟨hacc, List.nodup_singleton a, ?_⟩
      intro x hx hxa
      rw [List.mem_singleton.1 hxa] at hx
      simp only [Bool.and_eq_true, Bool.not_eq_true', decide_eq_false_iff_not] at hg
      exact hg.2 hx
    · rw [if_neg hg]
      exact ih acc hacc

theorem foldEntry_decomp (name : String) (L : List String) :
    ∀ acc : List String, L.Nodup →
      L.foldl
        (fun acc v => if containsStr name v && !(decide (v ∈ acc)) then acc ++ [v] else acc) acc =
      acc ++ L.filter (fun v => containsStr name v && !(decide (v ∈ acc))) := by
  induction L with
  | nil => simp
  | cons a L ih =>
    intro acc hnd
    rw [List.foldl_cons]
    have hL := (List.nodup_cons.1 hnd).2
    have haL := (List.nodup_cons.1 hnd).1
    by_cases hg : (containsStr name a && !(decide (a ∈ acc))) = true
    · rw [if_pos hg, ih _ hL, List.filter_cons, if_pos hg]
      have hcongr : L.filter (fun v => containsStr name v && !(decide (v ∈ acc ++ [a]))) =
          L.filter (fun v => containsStr name v && !(decide (v ∈ acc))) := by
        apply List.filter_congr
        intro v hv
        have hva : v ≠ a := fun h => haL (h ▸ hv)
        simp [List.mem_append, hva]
      rw [hcongr, List.append_assoc]
      rfl
    · rw [if_neg hg, ih _ hL, List.filter_cons, if_neg hg]

theorem mem_foldMembers (entries : List DirEntry) :
    ∀ (acc : List String) (v : String),
      v ∈ entries.foldl (fun acc e => foldEntry acc e.name) acc ↔
      v ∈ acc ∨ (v ∈ variantChecks ∧ ∃ e ∈ entries, containsStr e.name v = true) := by
  induction entries with
  | nil => simp
  | cons e E ih =>
    intro acc v
    rw [List.foldl_cons, ih]
    unfold foldEntry
    rw [mem_variantFold]
    constructor
    · rintro ((h | ⟨h1, h2⟩) | ⟨h1, e', he', h2⟩)
      · exact Or.inl h
      · exact Or.inr ⟨h1, e, List.mem_cons_self _ _, h2⟩
      · exact Or.inr ⟨h1, e', List.mem_cons_of_mem _ he', h2⟩
    · rintro (h | ⟨h1, e', he', h2⟩)
      · exact Or.inl (Or.inl h)
      · rcases List.mem_cons.1 he' with rfl | he'
        · exact Or.inl (Or.inr ⟨h1, h2⟩)
        · exact Or.inr ⟨h1, e', he', h2⟩

theorem nodup_foldMembers (entries : List DirEntry) :
    ∀ acc : List String, acc.Nodup →
      (entries.foldl (fun acc e => foldEntry acc e.name) acc).Nodup := by
  induction entries with
  | nil => exact fun _ h => h
  | cons e E ih =>
    intro acc hacc
    rw [List.foldl_cons]
    exact ih _ (nodup_variantFold e.name variantChecks acc hacc)

/-- Counterexample to C6: with auto-detection on and the asset directory
holding exactly the files `llama-cpp-avx2` and `llama-cpp-cuda`, the code
populates the member-variant list as AVX2, AVX, CUDA (per-entry substring
checks in the code's order, the AVX2 file also matching the AVX
substring), while the spec's claimed fixed discovery order would put CUDA
first. -/
theorem foldVariants_order_counterexample :
    llamaMembers true exEntries = [LLamaCPPAVX2, LLamaCPPAVX, LLamaCPPCUDA] ∧
    specFoldMembers exEntries = [LLamaCPPCUDA, LLamaCPPAVX2, LLamaCPPAVX] ∧
    llamaMembers true exEntries ≠ specFoldMembers exEntries :=
  ⟨by decide, by decide, by decide⟩

/-- C6 (amended): when auto-detection is on and no file literally keyed
`llama-cpp` was discovered, the member-variant list of the folded
`llama-cpp` entry is `foldMembers`; it contains each variant at most once
(first occurrence wins, duplicates ignored), its membership is exactly the
variants whose substring occurs in some directory entry's name, and its
order is per-entry: each entry appends, in the code's fixed check order
AVX2, AVX, fallback, GRPC, CUDA, HIP, SYCL-16, SYCL-32, the variants it
contains that are not yet present — not the spec's claimed global order. -/
theorem foldVariants_characterization (entries : List DirEntry)
    (hno : LLamaCPP ∉ baseKeys true entries) :
    llamaMembers true entries = foldMembers entries ∧
    (foldMembers entries).Nodup ∧
    (∀ v, v ∈ foldMembers entries ↔
      v ∈ variantChecks ∧ ∃ e ∈ entries, containsStr e.name v = true) ∧
    (∀ acc name, foldEntry acc name =
      acc ++ variantChecks.filter (fun v => containsStr name v && !(decide (v ∈ acc)))) := by
  refine ⟨?_, ?_, ?_, ?_⟩
  · simp [llamaMembers, hno]
  · exact nodup_foldMembers entries [] List.nodup_nil
  · intro v
    unfold foldMembers
    rw [mem_foldMembers]
    simp
  · intro acc name
    exact foldEntry_decomp name variantChecks acc (by decide)

/-- Witness for `foldVariants_characterization` at the concrete directory
`exEntries`. -/
theorem foldVariants_characterization_witness :
    llamaMembers true exEntries = foldMembers exEntries ∧
    (foldMembers exEntries).Nodup ∧
    (∀ v, v ∈ foldMembers exEntries ↔
      v ∈ variantChecks ∧ ∃ e ∈ exEntries, containsStr e.name v = true) ∧
    (∀ acc name, foldEntry acc name =
      acc ++ variantChecks.filter (fun v => containsStr name v && !(decide (v ∈ acc)))) :=
  foldVariants_characterization exEntries (by decide)

/-! ### Lemmas about the GPU scan of `selectGRPCProcess` -/

theorem gpuStep_found (assetDir : List String) (f16 : Bool) (stat : List String → Bool)
    (st : GpuScan) (gpu : String) :
    gpuFound (gpuStep assetDir f16 stat st gpu) =
      (gpuFound st || gpuMatchResolves assetDir f16 stat gpu) := by
  simp only [gpuStep, gpuMatchResolves, gpuFound]
  split_ifs <;> simp_all

theorem gpuStep_proc (assetDir : List String) (f16 : Bool) (stat : List String → Bool)
    (st : GpuScan) (gpu : String) (p : List String)
    (h : (gpuStep assetDir f16 stat st gpu).grpcProcess = some p) :
    st.grpcProcess = some p ∨
      (stat p = true ∧ ∃ v, v ∈ [LLamaCPPCUDA, LLamaCPPHipblas, LLamaCPPSycl16, LLamaCPPSycl32] ∧
        p = backendPath assetDir v ∧ gpuVendorMatch f16 gpu v = true) := by
  simp only [gpuStep] at h
  split_ifs at h <;> first
    | exact Or.inl h
    | (simp only [Option.some.injEq] at h
       subst h
       refine Or.inr ⟨by assumption, ?_⟩
       simp_all [gpuVendorMatch])

theorem gpuStep_isSome (assetDir : List String) (f16 : Bool) (stat : List String → Bool)
    (st : GpuScan) (gpu : String)
    (h : gpuFound st = true → st.grpcProcess.isSome = true) :
    gpuFound (gpuStep assetDir f16 stat st gpu) = true →
      (gpuStep assetDir f16 stat st gpu).grpcProcess.isSome = true := by
  simp only [gpuStep, gpuFound] at *
  split_ifs <;> simp_all

theorem gpuFold_found (assetDir : List String) (f16 : Bool) (stat : List String → Bool)
    (gpus : List String) :
    ∀ st : GpuScan,
      gpuFound (gpus.foldl (gpuStep assetDir f16 stat) st) =
        (gpuFound st || gpus.any (gpuMatchResolves assetDir f16 stat)) := by
  induction gpus with
  | nil => simp
  | cons g gpus ih =>
    intro st
    rw [List.foldl_cons, ih, gpuStep_found]
    simp [Bool.or_assoc]

theorem gpuFold_isSome (assetDir : List String) (f16 : Bool) (stat : List String → Bool)
    (gpus : List String) :
    ∀ st : GpuScan, (gpuFound st = true → st.grpcProcess.isSome = true) →
      gpuFound (gpus.foldl (gpuStep assetDir f16 stat) st) = true →
      (gpus.foldl (gpuStep assetDir f16 stat) st).grpcProcess.isSome = true := by
  induction gpus with
  | nil => exact fun st h => h
  | cons g gpus ih =>
    intro st h
    rw [List.foldl_cons]
    exact ih _ (gpuStep_isSome assetDir f16 stat st g h)

theorem gpuFold_proc (assetDir : List String) (f16 : Bool) (stat : List String → Bool)
    (gpus : List String) :
    ∀ (st : GpuScan) (p : List String),
      (gpus.foldl (gpuStep assetDir f16 stat) st).grpcProcess = some p →
      st.grpcProcess = some p ∨
        (stat p = true ∧
          ∃ v, v ∈ [LLamaCPPCUDA, LLamaCPPHipblas, LLamaCPPSycl16, LLamaCPPSycl32] ∧
            p = backendPath assetDir v ∧ ∃ g ∈ gpus, gpuVendorMatch f16 g v = true) := by
  induction gpus with
  | nil => exact fun st p h => Or.inl h
  | cons g gpus ih =>
    intro st p h
    rw [List.foldl_cons] at h
    rcases ih _ p h with h1 | ⟨hs, v, hv, hp, g', hg', hm⟩
    · rcases gpuStep_proc assetDir f16 stat st g p h1 with h2 | ⟨hs, v, hv, hp, hm⟩
      · exact Or.inl h2
      · exact Or.inr ⟨hs, v, hv, hp, g, List.mem_cons_self _ _, hm⟩
    · exact Or.inr ⟨hs, v, hv, hp, g', List.mem_cons_of_mem _ hg', hm⟩

theorem backendPath_inj {assetDir : List String} {a b : String}
    (h : backendPath assetDir a = backendPath assetDir b) : a = b := by
  unfold backendPath at h
  have := List.append_cancel_left h
  simpa using this

/-- C2: `selectGRPCProcess` returns the empty result for every backend name
other than `llama-cpp` (the embedding is a pure function of the backend
name, the asset directory, the F16 flag and the probed system facts, so
the selection is deterministic in those inputs); and, absent the
remote-GRPC environment override, whenever some attached GPU's vendor
match resolves to an installed variant file, the returned path is an
installed GPU variant matched by one of the attached GPUs, and is none of
the CPU-feature variant paths (AVX2, AVX, fallback), even if those are
also installed. -/
theorem selectGRPCProcess_gpu_dominance (backend : String) (assetDir : List String)
    (f16 : Bool) (sys : SysInfo) :
    (backend ≠ LLamaCPP → selectGRPCProcess backend assetDir f16 sys = none) ∧
    (sys.grpcServersEnvSet = false →
      sys.gpusOk = true →
      sys.gpus.any (gpuMatchResolves assetDir f16 sys.stat) = true →
      ∃ v, v ∈ [LLamaCPPCUDA, LLamaCPPHipblas, LLamaCPPSycl16, LLamaCPPSycl32] ∧
        selectGRPCProcess LLamaCPP assetDir f16 sys = some (backendPath assetDir v) ∧
        sys.stat (backendPath assetDir v) = true ∧
        (∃ g ∈ sys.gpus, gpuVendorMatch f16 g v = true) ∧
        ∀ c ∈ [LLamaCPPAVX2, LLamaCPPAVX, LLamaCPPFallback],
          backendPath assetDir v ≠ backendPath assetDir c) := by
  constructor
  · intro hb
    simp [selectGRPCProcess, hb]
  · intro henv hok hany
    have hfold :
        selectGRPCProcess LLamaCPP assetDir f16 sys =
          (if gpuFound (sys.gpus.foldl (gpuStep assetDir f16 sys.stat) ⟨none, false, false, false⟩)
          then (sys.gpus.foldl (gpuStep assetDir f16 sys.stat) ⟨none, false, false, false⟩).grpcProcess
          else
            if sys.hasAVX2 then
              if sys.stat (backendPath assetDir LLamaCPPAVX2)
              then some (backendPath assetDir LLamaCPPAVX2)
              else (sys.gpus.foldl (gpuStep assetDir f16 sys.stat) ⟨none, false, false, false⟩).grpcProcess
            else if sys.hasAVX then
              if sys.stat (backendPath assetDir LLamaCPPAVX)
              then some (backendPath assetDir LLamaCPPAVX)
              else (sys.gpus.foldl (gpuStep assetDir f16 sys.stat) ⟨none, false, false, false⟩).grpcProcess
            else
              if sys.stat (backendPath assetDir LLamaCPPFallback)
              then some (backendPath assetDir LLamaCPPFallback)
              else (sys.gpus.foldl (gpuStep assetDir f16 sys.stat) ⟨none, false, false, false⟩).grpcProcess) := by
      simp [selectGRPCProcess, henv, hok, gpuFound]
    have hfoundtrue :
        gpuFound (sys.gpus.foldl (gpuStep assetDir f16 sys.stat) ⟨none, false, false, false⟩) = true := by
      rw [gpuFold_found]
      simp [gpuFound, hany]
    have hsome :=
      gpuFold_isSome assetDir f16 sys.stat sys.gpus ⟨none, false, false, false⟩
        (by intro h; simp [gpuFound] at h) hfoundtrue
    obtain ⟨p, hp⟩ := Option.isSome_iff_exists.1 hsome
    rcases gpuFold_proc assetDir f16 sys.stat sys.gpus ⟨none, false, false, false⟩ p hp with h0 | h1
    · simp at h0
    · obtain ⟨hs, v, hv, hpv, g, hg, hm⟩ := h1
      refine ⟨v, hv, ?_, hpv ▸ hs, ⟨g, hg, hm⟩, ?_⟩
      · rw [hfold, if_pos hfoundtrue, hp, hpv]
      · intro c hc heq
        have hne : ∀ x ∈ [LLamaCPPCUDA, LLamaCPPHipblas, LLamaCPPSycl16, LLamaCPPSycl32],
            ∀ y ∈ [LLamaCPPAVX2, LLamaCPPAVX, LLamaCPPFallback], x ≠ y := by decide
        exact hne v hv c hc (backendPath_inj heq)

/-- Witness for `selectGRPCProcess_gpu_dominance`: a non-llama backend
returns empty, and an NVIDIA GPU with an installed CUDA variant dominates
an AVX2-capable CPU. -/
theorem selectGRPCProcess_gpu_dominance_witness :
    selectGRPCProcess "whisper" [] false exSysCUDA = none ∧
    ∃ v, v ∈ [LLamaCPPCUDA, LLamaCPPHipblas, LLamaCPPSycl16, LLamaCPPSycl32] ∧
      selectGRPCProcess LLamaCPP [] false exSysCUDA = some (backendPath [] v) ∧
      exSysCUDA.stat (backendPath [] v) = true ∧
      (∃ g ∈ exSysCUDA.gpus, gpuVendorMatch false g v = true) ∧
      ∀ c ∈ [LLamaCPPAVX2, LLamaCPPAVX, LLamaCPPFallback],
        backendPath [] v ≠ backendPath [] c :=
  ⟨(selectGRPCProcess_gpu_dominance "whisper" [] false exSysCUDA).1 (by decide),
   (selectGRPCProcess_gpu_dominance LLamaCPP [] false exSysCUDA).2 rfl rfl (by decide)⟩

/-! ### Lemmas about the readiness loop of `grpcModel` -/

theorem healthLoop_never_alive (delay : Nat) (alive : Nat → Bool) :
    ∀ (n i : Nat), (∀ j, j < n → alive (i + j) = false) →
      healthLoop n delay alive i = (false, n * delay) := by
  intro n
  induction n with
  | zero => intro i _; simp [healthLoop]
  | succ n ih =>
    intro i h
    have h0 : alive i = false := by simpa using h 0 (Nat.succ_pos n)
    have hrec : healthLoop n delay alive (i + 1) = (false, n * delay) := by
      refine ih (i + 1) ?_
      intro j hj
      have := h (j + 1) (Nat.succ_lt_succ hj)
      simpa [Nat.add_assoc, Nat.add_comm 1 j] using this
    simp [healthLoop, h0, hrec, Nat.succ_mul, Nat.add_comm]

theorem healthLoop_eventually_alive (delay : Nat) (alive : Nat → Bool) :
    ∀ (n i : Nat), (∃ j, j < n ∧ alive (i + j) = true) →
      (healthLoop n delay alive i).1 = true := by
  intro n
  induction n with
  | zero => rintro i ⟨j, hj, _⟩; exact absurd hj (Nat.not_lt_zero j)
  | succ n ih =>
    rintro i ⟨j, hj, halive⟩
    by_cases h0 : alive i = true
    · simp [healthLoop, h0]
    · have hj0 : j ≠ 0 := by
        rintro rfl
        simp at halive
        exact h0 halive
      obtain ⟨j', rfl⟩ := Nat.exists_eq_succ_of_ne_zero hj0
      have : (healthLoop n delay alive (i + 1)).1 = true := by
        refine ih (i + 1) ⟨j', Nat.lt_of_succ_lt_succ hj, ?_⟩
        simpa [Nat.add_assoc, Nat.add_comm 1 j'] using halive
      simp [healthLoop, h0, this]

/-- C3: if the health check never reports alive within the configured
attempt count, the readiness loop runs its full bound sleeping the
configured delay after every failed attempt (total sleep `attempts *
delay`, not less), the partially registered handle is removed via
`deleteProcess`, and the hard error "grpc service not ready" is returned
regardless of the pending `LoadModel` outcome. -/
theorem grpcModel_not_ready_budget (attempts delay : Nat) (alive : Nat → Bool)
    (load : Except String (Bool × String))
    (h : ∀ i, i < attempts → alive i = false) :
    grpcModelAwait attempts delay alive load =
      ⟨Except.error "grpc service not ready", true, attempts * delay⟩ := by
  have hloop : healthLoop attempts delay alive 0 = (false, attempts * delay) := by
    refine healthLoop_never_alive delay alive attempts 0 ?_
    intro j hj
    simpa using h j hj
  simp [grpcModelAwait, hloop]

/-- Witness for `grpcModel_not_ready_budget`: two attempts with delay three
sleep six seconds in total, delete the handle and fail hard, even though
the load RPC would have succeeded. -/
theorem grpcModel_not_ready_budget_witness :
    grpcModelAwait 2 3 (fun _ => false) (Except.ok (true, "")) =
      ⟨Except.error "grpc service not ready", true, 2 * 3⟩ :=
  grpcModel_not_ready_budget 2 3 (fun _ => false) (Except.ok (true, ""))
    (fun _ _ => rfl)

/-- C7: once the service is ready, only an explicit success reply yields a
usable handle: a transport error on `LoadModel` deregisters the handle and
returns a hard error, an explicit failure reply (`Success` false) does the
same, and a success reply returns the client with no deregistration. -/
theorem grpcModel_load_outcome (attempts delay : Nat) (alive : Nat → Bool)
    (load : Except String (Bool × String))
    (h : ∃ i, i < attempts ∧ alive i = true) :
    (∀ e, load = Except.error e →
      grpcModelAwait attempts delay alive load =
        ⟨Except.error ("could not load model: " ++ e), true,
          (healthLoop attempts delay alive 0).2⟩) ∧
    (∀ m, load = Except.ok (false, m) →
      grpcModelAwait attempts delay alive load =
        ⟨Except.error ("could not load model (no success): " ++ m), true,
          (healthLoop attempts delay alive 0).2⟩) ∧
    (∀ m, load = Except.ok (true, m) →
      grpcModelAwait attempts delay alive load =
        ⟨Except.ok (), false, (healthLoop attempts delay alive 0).2⟩) := by
  have hready : (healthLoop attempts delay alive 0).1 = true := by
    refine healthLoop_eventually_alive delay alive attempts 0 ?_
    obtain ⟨i, hi, ha⟩ := h
    exact ⟨i, hi, by simpa using ha⟩
  refine ⟨?_, ?_, ?_⟩
  · rintro e rfl
    simp [grpcModelAwait, hready]
  · rintro m rfl
    simp [grpcModelAwait, hready]
  · rintro m rfl
    simp [grpcModelAwait, hready]

/-- Witness for `grpcModel_load_outcome` with one immediately-alive
attempt, checking all three `LoadModel` outcomes. -/
theorem grpcModel_load_outcome_witness :
    grpcModelAwait 1 0 (fun _ => true) (Except.error "conn reset") =
      ⟨Except.error ("could not load model: " ++ "conn reset"), true,
        (healthLoop 1 0 (fun _ => true) 0).2⟩ ∧
    grpcModelAwait 1 0 (fun _ => true) (Except.ok (false, "oom")) =
      ⟨Except.error ("could not load model (no success): " ++ "oom"), true,
        (healthLoop 1 0 (fun _ => true) 0).2⟩ ∧
    grpcModelAwait 1 0 (fun _ => true) (Except.ok (true, "")) =
      ⟨Except.ok (), false, (healthLoop 1 0 (fun _ => true) 0).2⟩ :=
  ⟨(grpcModel_load_outcome 1 0 (fun _ => true) (Except.error "conn reset")
      ⟨0, Nat.zero_lt_one, rfl⟩).1 "conn reset" rfl,
   (grpcModel_load_outcome 1 0 (fun _ => true) (Except.ok (false, "oom"))
      ⟨0, Nat.zero_lt_one, rfl⟩).2.1 "oom" rfl,
   (grpcModel_load_outcome 1 0 (fun _ => true) (Except.ok (true, ""))
      ⟨0, Nat.zero_lt_one, rfl⟩).2.2 "" rfl⟩

/-- C8: a greedy load of a model that is already registered returns the
existing handle's client immediately: the action trace is empty, so no
backend process is spawned and the single-active-backend eviction is never
applied, even when that policy is enabled — the short circuit runs first. -/
theorem greedyLoader_short_circuit (env : LoadEnv) (autoDetect : Bool)
    (assetDir : List String) (m : Handle) (singleActiveBackend : Bool)
    (autoLoadBackends externals : List String) :
    GreedyLoader env autoDetect assetDir (some m) singleActiveBackend
      autoLoadBackends externals = (GreedyOutcome.ok m, []) := rfl

/-- C5: the code contradicts the claim (and the spec).  Failing input: the
CPU supports AVX but not AVX2, the AVX variant file is installed and the
AVX2 file is not; the failing candidate is `llama-cpp` with auto-detection
on.  The AVX branch of the retry stats the AVX2 file, finds it absent, and
leaves the retry backend string empty, so `GreedyLoader` retries with the
empty backend name — adding a further error — instead of retrying the
installed AVX variant (first present among AVX2, AVX, fallback), as both
the claim and the surrounding code's intent require. -/
theorem greedyRetry_avx_bug :
    retryTarget exEnvAVX [] = some "" ∧
    specRetryTarget exEnvAVX.stat [] = some LLamaCPPAVX ∧
    retryTarget exEnvAVX [] ≠ specRetryTarget exEnvAVX.stat [] ∧
    (GreedyLoader exEnvAVX true [] none false [LLamaCPP] []).2 =
      [GAction.attempt LLamaCPP, GAction.attempt ""] ∧
    (GreedyLoader exEnvAVX true [] none false [LLamaCPP] []).1 =
      GreedyOutcome.aggErr
        ["[" ++ LLamaCPP ++ "]: " ++ "load failed", "[" ++ LLamaCPP ++ "]: " ++ "load failed"] :=
  ⟨by decide, by decide, by decide, by decide, by decide⟩

/-- Counterexample to C4: with an empty candidate list (empty discovered
backend set, no external backends, model not yet loaded) every candidate
vacuously fails, yet `GreedyLoader` does not return an aggregated error:
the final error formatting calls `Error()` on a nil error, a nil-pointer
dereference, modelled by the `nilDeref` outcome. -/
theorem greedyLoader_empty_nilDeref :
    GreedyLoader exEnvFail true [] none false [] [] = (GreedyOutcome.nilDeref, []) := by
  decide

/-! ### Error aggregation of the greedy candidate loop -/

theorem greedyLoop_allfail (env : LoadEnv) (autoDetect : Bool) (assetDir : List String)
    (hfail : ∀ s, (env.tryLoad s).2 ≠ none) :
    ∀ (keys : List String), ∀ (errs : List String) (acts : List GAction),
      ¬(keys = [] ∧ errs = []) →
      ∃ msgs, (greedyLoop env autoDetect assetDir keys errs acts).1 = GreedyOutcome.aggErr msgs ∧
        msgs ≠ [] ∧ (∀ m ∈ errs, m ∈ msgs) ∧
        (∀ key ∈ keys, ∃ e, ("[" ++ key ++ "]: " ++ e) ∈ msgs) := by
  intro keys
  induction keys with
  | nil =>
    intro errs acts hne
    have herrs : errs ≠ [] := fun h => hne ⟨rfl, h⟩
    refine ⟨errs, ?_, herrs, fun m hm => hm, by simp⟩
    simp [greedyLoop, List.isEmpty_iff, herrs]
  | cons key rest ih =>
    intro errs acts _
    rcases hres : env.tryLoad key with ⟨m1, e1⟩
    rcases e1 with _ | e
    · exact absurd (by rw [hres]) (hfail key)
    have hbuild : ∀ errs' : List String, errs' ≠ [] →
        (∀ m ∈ errs, m ∈ errs') → ("[" ++ key ++ "]: " ++ e) ∈ errs' →
        ∀ acts' : List GAction,
        ∃ msgs, (greedyLoop env autoDetect assetDir rest errs' acts').1 =
            GreedyOutcome.aggErr msgs ∧
          msgs ≠ [] ∧ (∀ m ∈ errs, m ∈ msgs) ∧
          (∀ k ∈ key :: rest, ∃ e', ("[" ++ k ++ "]: " ++ e') ∈ msgs) := by
      intro errs' hne' hsub hkey acts'
      obtain ⟨msgs, h1, h2, h3, h4⟩ := ih errs' acts' (fun h => hne' h.2)
      refine ⟨msgs, h1, h2, fun m hm => h3 m (hsub m hm), ?_⟩
      intro k hk
      rcases List.mem_cons.1 hk with rfl | hk
      · exact ⟨e, h3 _ hkey⟩
      · exact h4 k hk
    have hie : (errs ++ ["[" ++ key ++ "]: " ++ e]).isEmpty = false := by simp
    cases m1 with
    | some m =>
      simp only [greedyLoop, hres, describeFail]
      by_cases hcond : (autoDetect && decide (key = LLamaCPP)) = true
      · simp only [hcond, Bool.true_and]
        simp only [hie, Bool.not_false, if_true]
        rcases hrt : retryTarget env assetDir with _ | b
        · exact hbuild _ (by simp) (fun m hm => List.mem_append_left _ hm) (by simp) _
        · rcases hres2 : env.tryLoad b with ⟨m2, e2⟩
          rcases e2 with _ | e2
          · exact absurd (by rw [hres2]) (hfail b)
          cases m2 with
          | some m2 =>
            simp only [hres2]
            exact hbuild _ (by simp) (fun m hm => by simp [hm]) (by simp) _
          | none =>
            simp only [hres2]
            exact hbuild _ (by simp) (fun m hm => by simp [hm]) (by simp) _
      · rw [Bool.not_eq_true] at hcond
        simp only [hcond, Bool.false_and, Bool.false_eq_true, if_false]
        exact hbuild _ (by simp) (fun m hm => List.mem_append_left _ hm) (by simp) _
    | none =>
      simp only [greedyLoop, hres, describeFail]
      by_cases hcond : (autoDetect && decide (key = LLamaCPP)) = true
      · simp only [hcond, Bool.true_and]
        simp only [hie, Bool.not_false, if_true]
        rcases hrt : retryTarget env assetDir with _ | b
        · exact hbuild _ (by simp) (fun m hm => List.mem_append_left _ hm) (by simp) _
        · rcases hres2 : env.tryLoad b with ⟨m2, e2⟩
          rcases e2 with _ | e2
          · exact absurd (by rw [hres2]) (hfail b)
          cases m2 with
          | some m2 =>
            simp only [hres2]
            exact hbuild _ (by simp) (fun m hm => by simp [hm]) (by simp) _
          | none =>
            simp only [hres2]
            exact hbuild _ (by simp) (fun m hm => by simp [hm]) (by simp) _
      · rw [Bool.not_eq_true] at hcond
        simp only [hcond, Bool.false_and, Bool.false_eq_true, if_false]
        exact hbuild _ (by simp) (fun m hm => List.mem_append_left _ hm) (by simp) _

/-- C4 (amended): on every input whose candidate list (discovered backends
followed by externals) is non-empty and on which every `BackendLoader`
call fails with a non-nil error, `GreedyLoader` returns a single
aggregated error that is non-empty and names each attempted backend with
its per-candidate failure; in particular no nil error is ever paired with
a nil client on such inputs.  (With an empty candidate list the Go code
instead dereferences a nil error — see the counterexample.) -/
theorem greedyLoader_aggregates_errors (env : LoadEnv) (autoDetect : Bool)
    (assetDir : List String) (singleActiveBackend : Bool)
    (autoLoadBackends externals : List String)
    (hne : autoLoadBackends ++ externals ≠ [])
    (hfail : ∀ s, (env.tryLoad s).2 ≠ none) :
    ∃ msgs,
      (GreedyLoader env autoDetect assetDir none singleActiveBackend
        autoLoadBackends externals).1 = GreedyOutcome.aggErr msgs ∧
      msgs ≠ [] ∧
      ∀ key ∈ autoLoadBackends ++ externals, ∃ e, ("[" ++ key ++ "]: " ++ e) ∈ msgs := by
  obtain ⟨msgs, h1, h2, _, h4⟩ :=
    greedyLoop_allfail env autoDetect assetDir hfail (autoLoadBackends ++ externals) []
      (if singleActiveBackend then [GAction.evict] else []) (fun h => hne h.1)
  exact ⟨msgs, h1, h2, h4⟩

/-- Witness for `greedyLoader_aggregates_errors` with a single failing
candidate. -/
theorem greedyLoader_aggregates_errors_witness :
    ∃ msgs,
      (GreedyLoader exEnvFail true [] none false ["whisper"] []).1 =
        GreedyOutcome.aggErr msgs ∧
      msgs ≠ [] ∧
      ∀ key ∈ ["whisper"] ++ ([] : List String), ∃ e, ("[" ++ key ++ "]: " ++ e) ∈ msgs :=
  greedyLoader_aggregates_errors exEnvFail true [] false ["whisper"] []
    (by decide) (fun s => by simp [exEnvFail])

/-- C9: for a non-external backend, `grpcModel` verifies that the path
resolved under the asset directory lies strictly within that directory —
a violation returns a hard error with no process spawned and no silent
correction; and when the resolved executable (after any auto-detect
substitution) does not exist, a hard "backend not found" error is
returned immediately, with no process spawned and no retry.  A spawn
(`Except.ok`) happens only with the verification passed and the
executable present. -/
theorem grpcModel_path_guards (autoDetect : Bool) (assetDir : List String)
    (backend : String) (f16 : Bool) (sys : SysInfo) :
    (VerifyPath (resolveBackendPath assetDir backend) assetDir = false →
      grpcModelResolve autoDetect assetDir backend f16 sys =
        Except.error "refering to a backend not in asset dir") ∧
    (VerifyPath (resolveBackendPath assetDir backend) assetDir = true →
      sys.stat (effectiveProcess autoDetect assetDir backend f16 sys) = false →
      grpcModelResolve autoDetect assetDir backend f16 sys =
        Except.error ("backend not found: " ++
          String.intercalate "/" (effectiveProcess autoDetect assetDir backend f16 sys))) ∧
    (∀ p, grpcModelResolve autoDetect assetDir backend f16 sys = Except.ok p →
      VerifyPath (resolveBackendPath assetDir backend) assetDir = true ∧
      sys.stat p = true ∧ p = effectiveProcess autoDetect assetDir backend f16 sys) := by
  refine ⟨?_, ?_, ?_⟩
  · intro hv
    simp [grpcModelResolve, hv]
  · intro hv hs
    simp [grpcModelResolve, hv, hs]
  · intro p hp
    by_cases hv : VerifyPath (resolveBackendPath assetDir backend) assetDir = true
    · by_cases hs : sys.stat (effectiveProcess autoDetect assetDir backend f16 sys) = true
      · refine ⟨hv, ?_, ?_⟩ <;>
          (simp [grpcModelResolve, hv, hs] at hp; simp [hp ▸ hs, hp])
      · rw [Bool.not_eq_true] at hs
        simp [grpcModelResolve, hv, hs] at hp
    · rw [Bool.not_eq_true] at hv
      simp [grpcModelResolve, hv] at hp

/-- Witness for `grpcModel_path_guards`: a traversal outside the asset
directory errors; a missing executable errors with "backend not found";
an installed executable proceeds to the spawn. -/
theorem grpcModel_path_guards_witness :
    grpcModelResolve false ["assets"] "../../../etc/passwd" false exSysCUDA =
      Except.error "refering to a backend not in asset dir" ∧
    grpcModelResolve false ["assets"] "whisper" false exSysCUDA =
      Except.error ("backend not found: " ++
        String.intercalate "/" (effectiveProcess false ["assets"] "whisper" false exSysCUDA)) ∧
    (VerifyPath (resolveBackendPath [] "whisper") [] = true ∧
      exSysAll.stat ["backend-assets", "grpc", "whisper"] = true ∧
      ["backend-assets", "grpc", "whisper"] = effectiveProcess false [] "whisper" false exSysAll) :=
  ⟨(grpcModel_path_guards false ["assets"] "../../../etc/passwd" false exSysCUDA).1 (by decide),
   (grpcModel_path_guards false ["assets"] "whisper" false exSysCUDA).2.1 (by decide) (by decide),
   (grpcModel_path_guards false [] "whisper" false exSysAll).2.2
     ["backend-assets", "grpc", "whisper"] rfl⟩

/-- C10: `BackendLoader` normalizes the requested backend name by
lowercasing it and then resolving it through the alias table, so explicit
backend selection is case-insensitive in the requested name (names equal
after lowercasing normalize identically), `go-llama` and `llama` both map
to `llama-cpp`, `embedded-store` maps to `local-store`,
`langchain-huggingface` maps to `huggingface`, and two aliases of the same
backend load the same backend. -/
theorem backendLoader_normalization :
    (∀ s t : String, toLowerStr s = toLowerStr t →
      normalizeBackend s = normalizeBackend t) ∧
    normalizeBackend "GO-LLAMA" = LLamaCPP ∧
    normalizeBackend "go-llama" = LLamaCPP ∧
    normalizeBackend "llama" = LLamaCPP ∧
    normalizeBackend "embedded-store" = LocalStoreBackend ∧
    normalizeBackend "langchain-huggingface" = LCHuggingFaceBackend ∧
    normalizeBackend "go-llama" = normalizeBackend "LLAMA" := by
  refine ⟨?_, by decide, by decide, by decide, by decide, by decide, by decide⟩
  intro s t h
  simp only [normalizeBackend, h]

/-- Witness for `backendLoader_normalization`: mixed-case requests
normalize like their lowercase forms. -/
theorem backendLoader_normalization_witness :
    normalizeBackend "LLaMA" = normalizeBackend "llama" ∧
    normalizeBackend "GO-LLAMA" = LLamaCPP :=
  ⟨backendLoader_normalization.1 "LLaMA" "llama" (by decide),
   backendLoader_normalization.2.1⟩
